import Mathlib

/-!
Verification of the WLHeatmap filter-state-to-predicate compiler.

This file gives a shallow embedding of the date-key codec, the degraded-path
date enumeration, the capability-adaptive filter compiler, the metric weight
expression and the per-layer filter application of the WLHeatmap sources
(app.js and its sibling rewrites), and proves the testable properties of the
specification against it.

Modelling conventions:
- JavaScript Date values are modelled by their civil (proleptic Gregorian)
  calendar day number, counted from year 0, January 1 (all days uniform;
  the embedding works in a timezone without offset changes, matching the
  arithmetic new Date(y, m, d) / getTime() performed by the sources).
- The JS Date constructor normalisation (month index overflow, day-of-month
  overflow, and the two-digit-year +1900 rule) is embedded explicitly in
  epochOfKey.
- Numbers are Nat / Int / Rat; the heatmap weight ln(1 + x) is evaluated in
  the real numbers.
-/

/-! ## Civil calendar (JS Date day arithmetic) -/

/-- Gregorian leap year test (proleptic, as used by JS Date). -/
def isLeap (y : Nat) : Bool :=
  (y % 4 == 0 && y % 100 != 0) || (y % 400 == 0)

/-- Length of month m (1-12) in a year with leapness given by the flag. -/
def monthLen (leap : Bool) (m : Nat) : Nat :=
  match m with
  | 1 => 31
  | 2 => if leap then 29 else 28
  | 3 => 31
  | 4 => 30
  | 5 => 31
  | 6 => 30
  | 7 => 31
  | 8 => 31
  | 9 => 30
  | 10 => 31
  | 11 => 30
  | _ => 31

/-- Number of days in year y. -/
def daysInYear (y : Nat) : Nat := if isLeap y then 366 else 365

/-- Days from year 0, Jan 1 to year y, Jan 1. -/
def daysBeforeYear : Nat → Nat
  | 0 => 0
  | y + 1 => daysBeforeYear y + daysInYear y

/-- Days from Jan 1 to the first day of month m within one year. -/
def daysBeforeMonth (leap : Bool) : Nat → Nat
  | 0 => 0
  | 1 => 0
  | m + 2 => daysBeforeMonth leap (m + 1) + monthLen leap (m + 1)

/-- A civil calendar date (year, 1-based month, 1-based day). -/
structure CivilDate where
  year : Nat
  month : Nat
  day : Nat
deriving DecidableEq, Repr

/-- Numeric YYYYMMDD key of a civil date. -/
def civKey (t : CivilDate) : Nat := t.year * 10000 + t.month * 100 + t.day

/-- A calendar-consistent date: month 1-12, day within the month. -/
def validCivil (t : CivilDate) : Prop :=
  1 ≤ t.month ∧ t.month ≤ 12 ∧ 1 ≤ t.day ∧ t.day ≤ monthLen (isLeap t.year) t.month

/-- Locate the month and day of year-relative day r (0-based); fuel bounds the
number of months inspected. -/
def monthOfAux : Nat → Bool → Nat → Nat → Nat × Nat
  | 0, _, m, r => (m, r + 1)
  | fuel + 1, leap, m, r =>
    if r < monthLen leap m then (m, r + 1)
    else monthOfAux fuel leap (m + 1) (r - monthLen leap m)

/-- Locate the civil date of epoch day n, scanning years from y; fuel bounds
the number of years inspected (each year consumes at least 365 days, so fuel
n + 1 always suffices). -/
def civilOfEpochAux : Nat → Nat → Nat → CivilDate
  | 0, y, _ => ⟨y, 1, 1⟩
  | fuel + 1, y, n =>
    if n < daysInYear y then
      let p := monthOfAux 11 (isLeap y) 1 n
      ⟨y, p.1, p.2⟩
    else civilOfEpochAux fuel (y + 1) (n - daysInYear y)

/-- Civil date of an epoch day number (days since year 0, Jan 1). -/
def civilOfEpoch (n : Nat) : CivilDate := civilOfEpochAux (n + 1) 0 n

/-! ## Decimal digit strings (JS number-to-string and parsing) -/

/-- Decimal digits of n, most significant first; fuel-bounded division loop. -/
def natToDigitsAux : Nat → Nat → List Char → List Char
  | 0, _, acc => acc
  | fuel + 1, n, acc =>
    if n < 10 then Nat.digitChar n :: acc
    else natToDigitsAux fuel (n / 10) (Nat.digitChar (n % 10) :: acc)

/-- Decimal representation of a natural number, as JS template interpolation
of a nonnegative integer produces it (no leading zeros, "0" for 0). -/
def natToDigits (n : Nat) : List Char := natToDigitsAux (n + 1) n []

/-- Numeric value of a decimal digit list (how JS Number reads a digit group). -/
def valDigits (l : List Char) : Nat :=
  l.foldl (fun a c => a * 10 + (c.toNat - 48)) 0

/-- Split a character list at every slash (used to read back M/D/YYYY text). -/
def splitSlash : List Char → List (List Char)
  | [] => [[]]
  | c :: rest =>
    if c = '/' then [] :: splitSlash rest
    else
      match splitSlash rest with
      | [] => [[c]]
      | g :: gs => (c :: g) :: gs

/-! ## DateKeyCodec -/

/-- Source: formatMDY. Formats the civil date of an epoch day as the
M/D/YYYY text used by the tileset SaleDate field (no leading zeros). -/
def formatMDY (n : Nat) : String :=
  let t := civilOfEpoch n
  ⟨natToDigits t.month ++ '/' :: (natToDigits t.day ++ '/' :: natToDigits t.year)⟩

/-- Calendar key (YYYY*10000 + MM*100 + DD) read back from an M/D/YYYY string;
0 when the string does not have three slash-separated groups.  This is the
spec-side measurement of calendar order for formatted date strings. -/
def parseMDYKey (s : String) : Nat :=
  match splitSlash s.data with
  | [a, b, c] => valDigits c * 10000 + valDigits a * 100 + valDigits b
  | _ => 0

/-- Source: keyToDate.  Epoch day denoted by a YYYYMMDD key, including the JS
Date constructor normalisation: two-digit years are mapped to 19xx, month
index and day-of-month overflow carry over (new Date(y, m - 1, d)). -/
def epochOfKey (k : Nat) : Nat :=
  let y0 := k / 10000
  let m0 := k % 10000 / 100
  let d0 := k % 100
  let y1 := if y0 ≤ 99 then y0 + 1900 else y0
  let t := m0 + 11
  let y2 := y1 + t / 12 - 1
  let mo := t % 12 + 1
  daysBeforeYear y2 + daysBeforeMonth (isLeap y2) mo + d0 - 1

/-- Source: keyToDate null guard (if (!key) return null). -/
def keyToEpochOpt : Option Nat → Option Nat
  | none => none
  | some k => if k = 0 then none else some (epochOfKey k)

/-- YYYYMMDD keys that satisfy the DateKey invariant of the spec:
month 1-12, day 1-31. -/
def validKey (k : Nat) : Bool :=
  let m := k % 10000 / 100
  let d := k % 100
  1 ≤ m && m ≤ 12 && 1 ≤ d && d ≤ 31

/-- Source: buildAllowedSaleDates.  Enumerates the inclusive range of days
between two keys as M/D/YYYY strings; empty on null/zero keys, on a reversed
range, and on a span of more than 370 days. -/
def buildAllowedSaleDates (s e : Option Nat) : List String :=
  match keyToEpochOpt s, keyToEpochOpt e with
  | some sE, some eE =>
    let days : Int := (eE : Int) - (sE : Int)
    if days < 0 then []
    else if 370 < days then []
    else (List.range (days.toNat + 1)).map (fun i => formatMDY (sE + i))
  | _, _ => []

/-! ## Parsing of date text (dateStrToKey) -/

/-- Shape match for the anchored pattern of four digits, dash, two digits,
dash, two digits (the YYYY-MM-DD alternative of dateStrToKey). -/
def parseYMD (l : List Char) : Option (Nat × Nat × Nat) :=
  match l with
  | [a, b, c, d, s1, e, f, s2, g, h] =>
    if s1 = '-' ∧ s2 = '-' ∧ a.isDigit ∧ b.isDigit ∧ c.isDigit ∧ d.isDigit ∧
        e.isDigit ∧ f.isDigit ∧ g.isDigit ∧ h.isDigit then
      some (valDigits [a, b, c, d], valDigits [e, f], valDigits [g, h])
    else none
  | _ => none

/-- Shape match for the anchored pattern of one or two digits, slash, one or
two digits, slash, four digits (the M/D/YYYY alternative of dateStrToKey). -/
def parseMDY4 (l : List Char) : Option (Nat × Nat × Nat) :=
  match l with
  | [a, s1, b, s2, c1, c2, c3, c4] =>
    if s1 = '/' ∧ s2 = '/' ∧ a.isDigit ∧ b.isDigit ∧
        c1.isDigit ∧ c2.isDigit ∧ c3.isDigit ∧ c4.isDigit then
      some (valDigits [a], valDigits [b], valDigits [c1, c2, c3, c4])
    else none
  | [x1, x2, x3, x4, x5, c1, c2, c3, c4] =>
    if x3 = '/' ∧ x5 = '/' ∧ x1.isDigit ∧ x2.isDigit ∧ x4.isDigit ∧
        c1.isDigit ∧ c2.isDigit ∧ c3.isDigit ∧ c4.isDigit then
      some (valDigits [x1, x2], valDigits [x4], valDigits [c1, c2, c3, c4])
    else if x2 = '/' ∧ x5 = '/' ∧ x1.isDigit ∧ x3.isDigit ∧ x4.isDigit ∧
        c1.isDigit ∧ c2.isDigit ∧ c3.isDigit ∧ c4.isDigit then
      some (valDigits [x1], valDigits [x3, x4], valDigits [c1, c2, c3, c4])
    else none
  | [m1, m2, s1, d1, d2, s2, c1, c2, c3, c4] =>
    if s1 = '/' ∧ s2 = '/' ∧ m1.isDigit ∧ m2.isDigit ∧ d1.isDigit ∧ d2.isDigit ∧
        c1.isDigit ∧ c2.isDigit ∧ c3.isDigit ∧ c4.isDigit then
      some (valDigits [m1, m2], valDigits [d1, d2], valDigits [c1, c2, c3, c4])
    else none
  | _ => none

/-- JS String.trim on the character list: strip whitespace at both ends. -/
def trimChars (l : List Char) : List Char :=
  ((l.dropWhile Char.isWhitespace).reverse.dropWhile Char.isWhitespace).reverse

/-- Source: dateStrToKey.  Accepts trimmed YYYY-MM-DD or M/D/YYYY text,
validates truthy year, month 1-12 and day 1-31, and returns the YYYYMMDD
integer key; null (none) otherwise.  Total by construction (never throws). -/
def dateStrToKey (s : String) : Option Nat :=
  let t := trimChars s.data
  match parseYMD t with
  | some (y, mo, d) =>
    if y ≠ 0 ∧ 1 ≤ mo ∧ mo ≤ 12 ∧ 1 ≤ d ∧ d ≤ 31 then
      some (y * 10000 + mo * 100 + d)
    else none
  | none =>
    match parseMDY4 t with
    | some (mo, d, y) =>
      if y ≠ 0 ∧ 1 ≤ mo ∧ mo ≤ 12 ∧ 1 ≤ d ∧ d ≤ 31 then
        some (y * 10000 + mo * 100 + d)
      else none
    | none => none

/-! ## Renderers for date text (used to state acceptance properties) -/

/-- Two fixed decimal digits of n (mod 100), as a date input pads them. -/
def pad2Chars (n : Nat) : List Char :=
  [Nat.digitChar (n / 10 % 10), Nat.digitChar (n % 10)]

/-- Four fixed decimal digits of n (mod 10000). -/
def pad4Chars (n : Nat) : List Char :=
  [Nat.digitChar (n / 1000 % 10), Nat.digitChar (n / 100 % 10),
   Nat.digitChar (n / 10 % 10), Nat.digitChar (n % 10)]

/-- The YYYY-MM-DD text of a date, as a date input control renders it. -/
def ymdString (y mo d : Nat) : String :=
  ⟨pad4Chars y ++ '-' :: (pad2Chars mo ++ '-' :: pad2Chars d)⟩

/-- The M/D/YYYY text of a date with no leading zeros on month and day. -/
def mdyString (mo d y : Nat) : String :=
  ⟨natToDigits mo ++ '/' :: (natToDigits d ++ '/' :: natToDigits y)⟩

/-! ## Predicate trees (Mapbox filter expressions built by the compiler) -/

/-- Numeric value expressions occurring inside filter clauses. -/
inductive NumExpr where
  | num (q : ℚ)
  | get (field : String)
  | toNumber (e : NumExpr)
  | toNumberD (e : NumExpr) (fallback : ℚ)
  | coalesce3 (a b c : NumExpr)
deriving DecidableEq, Repr

/-- Source: saleDateKeyExpr, the coalesce chain over the primary and the
BOM-marked SaleDateKey field names with fallback 0. -/
def saleDateKeyExpr : NumExpr :=
  .coalesce3 (.toNumber (.get "SaleDateKey"))
    (.toNumber (.get "\uFEFFSaleDateKey")) (.num 0)

/-- One clause of the compiled filter expression. -/
inductive FilterClause where
  | eqGet (field : String) (value : String)
  | geNum (e : NumExpr) (key : Nat)
  | leNum (e : NumExpr) (key : Nat)
  | inGetLiteral (field : String) (allowed : List String)
deriving DecidableEq, Repr

/-- The BOM-marked SaleDate text field name of the tileset. -/
def BOM_SALEDATE_FIELD : String := "\uFEFFSaleDate"

/-- The filter-relevant part of the UI state snapshot: branch and group
sentinel strings and the optional date keys. -/
structure FilterState where
  branch : String
  group : String
  startKey : Option Nat
  endKey : Option Nat
deriving DecidableEq, Repr

/-- Branch and product group equality clauses (source: buildFilterExpr,
selector pushes; the empty string and the __ALL__ sentinel contribute none). -/
def selectorClauses (st : FilterState) : List FilterClause :=
  (if st.branch ≠ "" ∧ st.branch ≠ "__ALL__" then
    [FilterClause.eqGet "BranchName" st.branch] else []) ++
  (if st.group ≠ "" ∧ st.group ≠ "__ALL__" then
    [FilterClause.eqGet "ProductGroupLevel1" st.group] else [])

/-- Date clauses of buildFilterExpr: numeric range comparisons against the
SaleDateKey expression when the capability holds, otherwise the literal
SaleDate string membership fallback with the missing bound substituted by the
present one. -/
def dateClauses (st : FilterState) (hasKey : Bool) : List FilterClause :=
  if hasKey then
    (match st.startKey with
     | some k => [FilterClause.geNum saleDateKeyExpr k]
     | none => []) ++
    (match st.endKey with
     | some k => [FilterClause.leNum saleDateKeyExpr k]
     | none => [])
  else if st.startKey.isSome || st.endKey.isSome then
    let allowed := buildAllowedSaleDates (st.startKey.or st.endKey)
      (st.endKey.or st.startKey)
    if allowed.isEmpty then [] else
      [FilterClause.inGetLiteral BOM_SALEDATE_FIELD allowed]
  else []

/-- Source: buildFilterExpr.  The all-conjunction of the selector clauses and
the capability-dependent date clauses, in push order. -/
def buildFilterExpr (st : FilterState) (hasKey : Bool) : List FilterClause :=
  selectorClauses st ++ dateClauses st hasKey

/-- True when some clause of the tree is a string-set membership clause. -/
def hasInClause (cs : List FilterClause) : Bool :=
  cs.any fun c =>
    match c with
    | .inGetLiteral _ _ => true
    | _ => false

/-- True when every range comparison of the tree compares the SaleDateKey
coalesce expression. -/
def dateKeyComparisonsOnly (cs : List FilterClause) : Bool :=
  cs.all fun c =>
    match c with
    | .geNum e _ => e == saleDateKeyExpr
    | .leNum e _ => e == saleDateKeyExpr
    | _ => true

/-- Source: applyFilters bound normalisation.  When both keys are present and
reversed, swap them; otherwise leave the pair unchanged. -/
def normalizeDateKeys (s e : Option Nat) : Option Nat × Option Nat :=
  match s, e with
  | some a, some b => if b < a then (some b, some a) else (some a, some b)
  | _, _ => (s, e)

/-! ## Feature records and filter evaluation (renderer-side semantics) -/

/-- A property value of a feature record: a number, a string, or null
(an absent property reads as null through the get expression). -/
inductive JVal where
  | num (q : ℚ)
  | str (s : String)
  | jnull
deriving DecidableEq, Repr

/-- A feature property record. -/
def Record : Type := String → JVal

/-- Simplified model of the renderer's to-number conversion on one value:
numbers pass through, null converts to 0, decimal-digit strings parse, any
other string fails (none). -/
def parseNumQ (s : String) : Option ℚ :=
  if s.data ≠ [] ∧ ∀ c ∈ s.data, c.isDigit then some (valDigits s.data) else none

/-- to-number conversion of a single value; none is a conversion error. -/
def toNumCore : JVal → Option ℚ
  | .num q => some q
  | .jnull => some 0
  | .str s => parseNumQ s

/-- Evaluation of a numeric value expression against a record, modelling the
renderer's expression semantics: none is an evaluation error, coalesce skips
null and erroring arguments, to-number with fallback never errors. -/
def evalVal : NumExpr → Record → Option JVal
  | .num q, _ => some (.num q)
  | .get f, r => some (r f)
  | .toNumber e, r => (evalVal e r).bind fun v => (toNumCore v).map .num
  | .toNumberD e fb, r =>
    some (.num (((evalVal e r).bind toNumCore).getD fb))
  | .coalesce3 a b c, r =>
    match evalVal a r with
    | some .jnull | none =>
      (match evalVal b r with
       | some .jnull | none => evalVal c r
       | some v => some v)
    | some v => some v

/-- Evaluation of one filter clause against a record. -/
def evalClause : FilterClause → Record → Bool
  | .eqGet f v, r => r f == .str v
  | .geNum e k, r =>
    match evalVal e r with
    | some (.num q) => (k : ℚ) ≤ q
    | _ => false
  | .leNum e k, r =>
    match evalVal e r with
    | some (.num q) => q ≤ (k : ℚ)
    | _ => false
  | .inGetLiteral f allowed, r =>
    match r f with
    | .str s => allowed.contains s
    | _ => false

/-- Evaluation of the all-conjunction filter; the empty conjunction is true. -/
def evalFilter (cs : List FilterClause) (r : Record) : Bool :=
  cs.all fun c => evalClause c r

/-! ## Metric weight expression -/

/-- Source: metricFieldName of the metric toggle. -/
def metricFieldName (metric : String) : String :=
  if metric == "Tickets" then "TicketCount" else "TotalSales"

/-- Source: numField, the safe numeric coercion to-number(get f, fallback). -/
def numField (f : String) (fb : ℚ) : NumExpr := .toNumberD (.get f) fb

/-- Paint-side numeric expressions (the heatmap weight uses ln). -/
inductive PaintExpr where
  | const (q : ℚ)
  | add (a b : PaintExpr)
  | ln (e : PaintExpr)
  | ofNum (e : NumExpr)
deriving DecidableEq, Repr

/-- Source: heatWeightExpr, the weight transform ln(1 + value). -/
def heatWeightExpr (metric : String) : PaintExpr :=
  .ln (.add (.const 1) (.ofNum (numField (metricFieldName metric) 0)))

/-- Spec-side safeNumber coercion expression: the total, never-throwing
to-number of the field with fallback 0 (section 4.3 of the spec). -/
def safeNumberExpr (f : String) : NumExpr := .toNumberD (.get f) 0

/-- Spec-side metricExpression: ln(1 + safeNumber(metricField)), written from
the words of the spec to compare with the source heatWeightExpr. -/
def metricExpressionSpec (metric : String) : PaintExpr :=
  .ln (.add (.const 1) (.ofNum (safeNumberExpr (metricFieldName metric))))

/-- The coerced numeric value of a field of a record (value of safeNumber). -/
def safeNumberVal (f : String) (r : Record) : ℚ :=
  (toNumCore (r f)).getD 0

/-- Real-valued evaluation of a paint expression; none is an error. -/
noncomputable def evalPaint : PaintExpr → Record → Option ℝ
  | .const q, _ => some (q : ℝ)
  | .add a b, r =>
    match evalPaint a r, evalPaint b r with
    | some x, some y => some (x + y)
    | _, _ => none
  | .ln e, r => (evalPaint e r).map Real.log
  | .ofNum e, r =>
    match evalVal e r with
    | some (.num q) => some (q : ℝ)
    | _ => none

/-! ## Layer application (applyFilters setFilter section) -/

def HEAT_LAYER_ID : String := "wl-heat"

def POINT_LAYER_ID : String := "wl-points"

/-- One raw setFilter call: skipped (ok false) when the layer is absent,
throws when the renderer rejects it, otherwise applies (ok true). -/
def setFilterRaw (present fails : String → Bool) (id : String) :
    Except String Bool :=
  if present id then
    (if fails id then Except.error ("setFilter " ++ id ++ " failed")
     else Except.ok true)
  else Except.ok false

/-- One guarded setFilter call wrapped in its own try/catch, as in
applyFilters: the caught error is only logged (returned as a message). -/
def trySetFilter (present fails : String → Bool) (id : String) :
    Bool × Option String :=
  match setFilterRaw present fails id with
  | Except.ok b => (b, none)
  | Except.error e => (false, some e)

/-- Source: the setFilter section of applyFilters, applying the compiled
filter to the heat layer and then to the point layer, each inside its own
try/catch. -/
def applyFilterToLayers (present fails : String → Bool) :
    Except String (List (Bool × Option String)) := do
  let r1 := trySetFilter present fails HEAT_LAYER_ID
  let r2 := trySetFilter present fails POINT_LAYER_ID
  pure [r1, r2]

/-! ## Lemmas: decimal digits -/

theorem digitChar_toNat {v : Nat} (h : v < 10) : (Nat.digitChar v).toNat = 48 + v := by
  interval_cases v <;> decide

theorem digitChar_isDigit {v : Nat} (h : v < 10) : (Nat.digitChar v).isDigit = true := by
  interval_cases v <;> decide

theorem digitChar_ne_slash {v : Nat} (h : v < 10) : Nat.digitChar v ≠ '/' := by
  interval_cases v <;> decide

theorem digitChar_ne_dash {v : Nat} (h : v < 10) : Nat.digitChar v ≠ '-' := by
  interval_cases v <;> decide

theorem digitChar_not_ws {v : Nat} (h : v < 10) :
    (Nat.digitChar v).isWhitespace = false := by
  interval_cases v <;> decide

theorem natToDigitsAux_acc (fuel : Nat) :
    ∀ n acc, natToDigitsAux fuel n acc = natToDigitsAux fuel n [] ++ acc := by
  induction fuel with
  | zero => intro n acc; rfl
  | succ f ih =>
    intro n acc
    by_cases h : n < 10
    · simp [natToDigitsAux, h]
    · simp only [natToDigitsAux, if_neg h]
      rw [ih (n / 10) (Nat.digitChar (n % 10) :: acc),
        ih (n / 10) [Nat.digitChar (n % 10)], List.append_assoc]
      rfl

theorem natToDigitsAux_fuel :
    ∀ n f1 f2, n < f1 → n < f2 → natToDigitsAux f1 n [] = natToDigitsAux f2 n [] := by
  intro n
  induction n using Nat.strong_induction_on with
  | _ n ih =>
    intro f1 f2 h1 h2
    match f1, f2 with
    | g1 + 1, g2 + 1 =>
      by_cases h : n < 10
      · simp [natToDigitsAux, h]
      · simp only [natToDigitsAux, if_neg h]
        rw [natToDigitsAux_acc g1, natToDigitsAux_acc g2]
        have hd : n / 10 < n := Nat.div_lt_self (by omega) (by omega)
        rw [ih (n / 10) hd g1 g2 (by omega) (by omega)]

theorem natToDigits_small {n : Nat} (h : n < 10) :
    natToDigits n = [Nat.digitChar n] := by
  simp [natToDigits, natToDigitsAux, h]

theorem natToDigits_step {n : Nat} (h : 10 ≤ n) :
    natToDigits n = natToDigits (n / 10) ++ [Nat.digitChar (n % 10)] := by
  unfold natToDigits
  have : natToDigitsAux (n + 1) n [] =
      natToDigitsAux n (n / 10) [Nat.digitChar (n % 10)] := by
    simp [natToDigitsAux, Nat.not_lt.mpr h]
  rw [this, natToDigitsAux_acc]
  have hd : n / 10 < n := Nat.div_lt_self (by omega) (by omega)
  rw [natToDigitsAux_fuel (n / 10) n (n / 10 + 1) (by omega) (by omega)]

theorem valDigits_append_one (l : List Char) (c : Char) :
    valDigits (l ++ [c]) = valDigits l * 10 + (c.toNat - 48) := by
  simp [valDigits, List.foldl_append]

theorem valDigits_natToDigits (n : Nat) : valDigits (natToDigits n) = n := by
  induction n using Nat.strong_induction_on with
  | _ n ih =>
    by_cases h : n < 10
    · rw [natToDigits_small h]
      simp [valDigits, digitChar_toNat h]
    · rw [natToDigits_step (by omega), valDigits_append_one,
        ih (n / 10) (Nat.div_lt_self (by omega) (by omega)),
        digitChar_toNat (Nat.mod_lt n (by omega))]
      omega

theorem natToDigits_ne_slash (n : Nat) : ∀ c ∈ natToDigits n, c ≠ '/' := by
  induction n using Nat.strong_induction_on with
  | _ n ih =>
    by_cases h : n < 10
    · rw [natToDigits_small h]
      intro c hc
      simp at hc
      subst hc
      exact digitChar_ne_slash h
    · rw [natToDigits_step (by omega)]
      intro c hc
      rcases List.mem_append.mp hc with h1 | h2
      · exact ih (n / 10) (Nat.div_lt_self (by omega) (by omega)) c h1
      · simp at h2
        subst h2
        exact digitChar_ne_slash (Nat.mod_lt n (by omega))

theorem natToDigits_isDigit (n : Nat) : ∀ c ∈ natToDigits n, c.isDigit = true := by
  induction n using Nat.strong_induction_on with
  | _ n ih =>
    by_cases h : n < 10
    · rw [natToDigits_small h]
      intro c hc
      simp at hc
      subst hc
      exact digitChar_isDigit h
    · rw [natToDigits_step (by omega)]
      intro c hc
      rcases List.mem_append.mp hc with h1 | h2
      · exact ih (n / 10) (Nat.div_lt_self (by omega) (by omega)) c h1
      · simp at h2
        subst h2
        exact digitChar_isDigit (Nat.mod_lt n (by omega))

theorem natToDigits_two {n : Nat} (h1 : 10 ≤ n) (h2 : n ≤ 99) :
    natToDigits n = [Nat.digitChar (n / 10), Nat.digitChar (n % 10)] := by
  rw [natToDigits_step h1, natToDigits_small (by omega)]
  rfl

theorem natToDigits_four {n : Nat} (h1 : 1000 ≤ n) (h2 : n ≤ 9999) :
    natToDigits n = [Nat.digitChar (n / 1000), Nat.digitChar (n / 100 % 10),
      Nat.digitChar (n / 10 % 10), Nat.digitChar (n % 10)] := by
  rw [natToDigits_step (by omega), natToDigits_step (by omega),
    natToDigits_step (by omega), natToDigits_small (by omega)]
  have e1 : n / 10 / 10 = n / 100 := by omega
  rw [e1]
  have e2 : n / 100 / 10 = n / 1000 := by omega
  rw [e2]
  rfl

/-! ## Lemmas: splitting on slash, reading formatted dates back -/

theorem splitSlash_no_slash : ∀ l : List Char, (∀ c ∈ l, c ≠ '/') →
    splitSlash l = [l] := by
  intro l
  induction l with
  | nil => intro _; rfl
  | cons c rest ih =>
    intro h
    have hc : c ≠ '/' := h c (List.mem_cons_self c rest)
    have hr := ih fun x hx => h x (List.mem_cons_of_mem c hx)
    simp only [splitSlash, if_neg hc, hr]

theorem splitSlash_append (a r : List Char) (ha : ∀ c ∈ a, c ≠ '/') :
    splitSlash (a ++ '/' :: r) = a :: splitSlash r := by
  induction a with
  | nil => simp [splitSlash]
  | cons c a' ih =>
    have hc : c ≠ '/' := ha c (List.mem_cons_self c a')
    have h' : splitSlash (a'.append ('/' :: r)) = a' :: splitSlash r :=
      ih fun x hx => ha x (List.mem_cons_of_mem c hx)
    simp only [List.cons_append, splitSlash, if_neg hc]
    rw [h']

theorem parseMDYKey_mk (a b c : List Char) (ha : ∀ x ∈ a, x ≠ '/')
    (hb : ∀ x ∈ b, x ≠ '/') (hc : ∀ x ∈ c, x ≠ '/') :
    parseMDYKey ⟨a ++ '/' :: (b ++ '/' :: c)⟩ =
      valDigits c * 10000 + valDigits a * 100 + valDigits b := by
  unfold parseMDYKey
  rw [show (String.mk (a ++ '/' :: (b ++ '/' :: c))).data =
      a ++ '/' :: (b ++ '/' :: c) from rfl]
  rw [splitSlash_append _ _ ha, splitSlash_append _ _ hb, splitSlash_no_slash _ hc]

theorem parseMDYKey_formatMDY (n : Nat) :
    parseMDYKey (formatMDY n) = civKey (civilOfEpoch n) := by
  unfold formatMDY
  rw [parseMDYKey_mk _ _ _ (natToDigits_ne_slash _) (natToDigits_ne_slash _)
    (natToDigits_ne_slash _)]
  simp [valDigits_natToDigits, civKey]

/-! ## Lemmas: civil calendar correctness -/

theorem monthLen_pos (leap : Bool) (m : Nat) : 1 ≤ monthLen leap m := by
  unfold monthLen
  split <;> first | decide | (split <;> decide)

theorem monthLen_le (leap : Bool) (m : Nat) : monthLen leap m ≤ 31 := by
  unfold monthLen
  split <;> first | decide | (split <;> decide)

theorem daysBeforeMonth_succ (leap : Bool) {m : Nat} (h : 1 ≤ m) :
    daysBeforeMonth leap (m + 1) = daysBeforeMonth leap m + monthLen leap m := by
  match m, h with
  | k + 1, _ => rfl

theorem daysBeforeMonth_mono (leap : Bool) {a b : Nat} (ha : 1 ≤ a) (h : a ≤ b) :
    daysBeforeMonth leap a ≤ daysBeforeMonth leap b := by
  induction b, h using Nat.le_induction with
  | base => exact Nat.le_refl _
  | succ b hb ih =>
    have hs : daysBeforeMonth leap (b + 1) = daysBeforeMonth leap b + monthLen leap b :=
      daysBeforeMonth_succ leap (Nat.le_trans ha hb)
    omega

theorem daysBeforeMonth_13 (leap : Bool) :
    daysBeforeMonth leap 13 = if leap then 366 else 365 := by
  cases leap <;> rfl

theorem daysInYear_eq (y : Nat) :
    daysInYear y = daysBeforeMonth (isLeap y) 13 := by
  rw [daysBeforeMonth_13, daysInYear]

theorem daysInYear_ge (y : Nat) : 365 ≤ daysInYear y := by
  unfold daysInYear
  split <;> omega

theorem daysBeforeYear_succ (y : Nat) :
    daysBeforeYear (y + 1) = daysBeforeYear y + daysInYear y := rfl

theorem daysBeforeYear_mono {a b : Nat} (h : a ≤ b) :
    daysBeforeYear a ≤ daysBeforeYear b := by
  induction b, h using Nat.le_induction with
  | base => exact Nat.le_refl _
  | succ b hb ih =>
    have := daysBeforeYear_succ b
    omega

theorem monthOfAux_spec (fuel : Nat) : ∀ (leap : Bool) (m r : Nat), 1 ≤ m →
    daysBeforeMonth leap m + r < daysBeforeMonth leap (m + fuel + 1) →
    m ≤ (monthOfAux fuel leap m r).1 ∧
    (monthOfAux fuel leap m r).1 ≤ m + fuel ∧
    1 ≤ (monthOfAux fuel leap m r).2 ∧
    (monthOfAux fuel leap m r).2 ≤ monthLen leap (monthOfAux fuel leap m r).1 ∧
    daysBeforeMonth leap (monthOfAux fuel leap m r).1 + (monthOfAux fuel leap m r).2 =
      daysBeforeMonth leap m + r + 1 := by
  induction fuel with
  | zero =>
    intro leap m r hm hlt
    rw [Nat.add_zero] at hlt
    have hs : daysBeforeMonth leap (m + 1) = daysBeforeMonth leap m + monthLen leap m :=
      daysBeforeMonth_succ leap hm
    simp only [monthOfAux]
    refine ⟨Nat.le_refl _, Nat.le_refl _, by omega, by omega, by omega⟩
  | succ f ih =>
    intro leap m r hm hlt
    by_cases h : r < monthLen leap m
    · simp only [monthOfAux, if_pos h]
      refine ⟨Nat.le_refl _, by omega, by omega, by omega, by omega⟩
    · simp only [monthOfAux, if_neg h]
      have hs : daysBeforeMonth leap (m + 1) = daysBeforeMonth leap m + monthLen leap m :=
        daysBeforeMonth_succ leap hm
      have hpre : daysBeforeMonth leap (m + 1) + (r - monthLen leap m) <
          daysBeforeMonth leap (m + 1 + f + 1) := by
        have he : m + 1 + f + 1 = m + (f + 1) + 1 := by omega
        rw [he]
        omega
      have := ih leap (m + 1) (r - monthLen leap m) (by omega) hpre
      refine ⟨by omega, by omega, by omega, by omega, by omega⟩

theorem civilOfEpochAux_spec (fuel : Nat) : ∀ (y n : Nat), n < fuel →
    validCivil (civilOfEpochAux fuel y n) ∧
    y ≤ (civilOfEpochAux fuel y n).year ∧
    daysBeforeYear (civilOfEpochAux fuel y n).year +
      daysBeforeMonth (isLeap (civilOfEpochAux fuel y n).year)
        (civilOfEpochAux fuel y n).month +
      (civilOfEpochAux fuel y n).day = daysBeforeYear y + n + 1 := by
  induction fuel with
  | zero => intro y n h; omega
  | succ f ih =>
    intro y n h
    by_cases hy : n < daysInYear y
    · have hpre : daysBeforeMonth (isLeap y) 1 + n < daysBeforeMonth (isLeap y) (1 + 11 + 1) := by
        have h13 := daysInYear_eq y
        have h1 : daysBeforeMonth (isLeap y) 1 = 0 := rfl
        have he : (1 + 11 + 1 : Nat) = 13 := rfl
        rw [he]
        omega
      have hmo := monthOfAux_spec 11 (isLeap y) 1 n (Nat.le_refl 1) hpre
      have h1 : daysBeforeMonth (isLeap y) 1 = 0 := rfl
      simp only [civilOfEpochAux, if_pos hy]
      unfold validCivil
      dsimp only
      refine ⟨⟨by omega, by omega, by omega, by omega⟩, Nat.le_refl _, by omega⟩
    · have hge : daysInYear y ≤ n := by omega
      have hrec := ih (y + 1) (n - daysInYear y) (by have := daysInYear_ge y; omega)
      simp only [civilOfEpochAux, if_neg hy]
      have hsy := daysBeforeYear_succ y
      refine ⟨hrec.1, by omega, by omega⟩

theorem civilOfEpoch_spec (n : Nat) :
    validCivil (civilOfEpoch n) ∧
    daysBeforeYear (civilOfEpoch n).year +
      daysBeforeMonth (isLeap (civilOfEpoch n).year) (civilOfEpoch n).month +
      (civilOfEpoch n).day = n + 1 := by
  have h := civilOfEpochAux_spec (n + 1) 0 n (by omega)
  unfold civilOfEpoch
  refine ⟨h.1, ?_⟩
  have h2 := h.2.2
  have h0 : daysBeforeYear 0 = 0 := rfl
  omega

theorem epoch_lt_of_civKey_lt {t1 t2 : CivilDate}
    (h1 : validCivil t1) (h2 : validCivil t2) (hk : civKey t1 < civKey t2) :
    daysBeforeYear t1.year + daysBeforeMonth (isLeap t1.year) t1.month + t1.day <
      daysBeforeYear t2.year + daysBeforeMonth (isLeap t2.year) t2.month + t2.day := by
  obtain ⟨hm1, hm1', hd1, hd1'⟩ := h1
  obtain ⟨hm2, hm2', hd2, hd2'⟩ := h2
  have hl1 := monthLen_le (isLeap t1.year) t1.month
  have hl2 := monthLen_le (isLeap t2.year) t2.month
  unfold civKey at hk
  have hcases : t1.year < t2.year ∨ (t1.year = t2.year ∧ t1.month < t2.month) ∨
      (t1.year = t2.year ∧ t1.month = t2.month ∧ t1.day < t2.day) := by omega
  rcases hcases with hy | ⟨hy, hm⟩ | ⟨hy, hm, hd⟩
  · have hb1 : daysBeforeMonth (isLeap t1.year) t1.month + t1.day ≤
        daysBeforeMonth (isLeap t1.year) 13 := by
      have hs := daysBeforeMonth_succ (isLeap t1.year) hm1
      have hmono := daysBeforeMonth_mono (isLeap t1.year)
        (show 1 ≤ t1.month + 1 by omega) (show t1.month + 1 ≤ 13 by omega)
      omega
    have h13 : daysBeforeMonth (isLeap t1.year) 13 = daysInYear t1.year :=
      (daysInYear_eq t1.year).symm
    have hsy := daysBeforeYear_succ t1.year
    have hmono := daysBeforeYear_mono (show t1.year + 1 ≤ t2.year by omega)
    omega
  · have hs := daysBeforeMonth_succ (isLeap t2.year) hm1
    have hmono := daysBeforeMonth_mono (isLeap t2.year)
      (show 1 ≤ t1.month + 1 by omega) (show t1.month + 1 ≤ t2.month by omega)
    rw [hy] at hd1' ⊢
    omega
  · rw [hy, hm]
    omega

theorem civKey_injective_valid {t1 t2 : CivilDate}
    (h1 : validCivil t1) (h2 : validCivil t2) (hk : civKey t1 = civKey t2) :
    t1 = t2 := by
  obtain ⟨hm1, hm1', hd1, hd1'⟩ := h1
  obtain ⟨hm2, hm2', hd2, hd2'⟩ := h2
  have hl1 := monthLen_le (isLeap t1.year) t1.month
  have hl2 := monthLen_le (isLeap t2.year) t2.month
  unfold civKey at hk
  cases t1
  cases t2
  simp_all
  omega

theorem civKey_civilOfEpoch_strictMono {m n : Nat} (h : m < n) :
    civKey (civilOfEpoch m) < civKey (civilOfEpoch n) := by
  have hm := civilOfEpoch_spec m
  have hn := civilOfEpoch_spec n
  rcases Nat.lt_trichotomy (civKey (civilOfEpoch m)) (civKey (civilOfEpoch n)) with hlt | heq | hgt
  · exact hlt
  · exfalso
    have he := civKey_injective_valid hm.1 hn.1 heq
    rw [he] at hm
    omega
  · exfalso
    have := epoch_lt_of_civKey_lt hn.1 hm.1 hgt
    omega

theorem civilOfEpoch_of_valid (t : CivilDate) (h : validCivil t) :
    civilOfEpoch (daysBeforeYear t.year + daysBeforeMonth (isLeap t.year) t.month +
      t.day - 1) = t := by
  obtain ⟨hm, hm', hd, hd'⟩ := h
  set n := daysBeforeYear t.year + daysBeforeMonth (isLeap t.year) t.month + t.day - 1 with hn
  have hsum : daysBeforeYear t.year + daysBeforeMonth (isLeap t.year) t.month + t.day =
      n + 1 := by omega
  have hspec := civilOfEpoch_spec n
  rcases Nat.lt_trichotomy (civKey (civilOfEpoch n)) (civKey t) with hlt | heq | hgt
  · exfalso
    have := epoch_lt_of_civKey_lt hspec.1 ⟨hm, hm', hd, hd'⟩ hlt
    omega
  · exact civKey_injective_valid hspec.1 ⟨hm, hm', hd, hd'⟩ heq
  · exfalso
    have := epoch_lt_of_civKey_lt ⟨hm, hm', hd, hd'⟩ hspec.1 hgt
    omega

theorem epochOfKey_of_valid {y mo d : Nat} (hy : 100 ≤ y) (hm : 1 ≤ mo) (hm' : mo ≤ 12)
    (hd' : d ≤ 99) :
    epochOfKey (y * 10000 + mo * 100 + d) =
      daysBeforeYear y + daysBeforeMonth (isLeap y) mo + d - 1 := by
  simp only [epochOfKey]
  have e1 : (y * 10000 + mo * 100 + d) / 10000 = y := by omega
  have e2 : (y * 10000 + mo * 100 + d) % 10000 / 100 = mo := by omega
  have e3 : (y * 10000 + mo * 100 + d) % 100 = d := by omega
  rw [e1, e2, e3]
  have e4 : (if y ≤ 99 then y + 1900 else y) = y := by
    rw [if_neg (by omega)]
  rw [e4]
  have e5 : (mo + 11) / 12 = 1 := by omega
  have e6 : (mo + 11) % 12 + 1 = mo := by omega
  rw [e5, e6]
  have e7 : y + 1 - 1 = y := by omega
  rw [e7]

theorem civilOfEpoch_epochOfKey {y mo d : Nat} (hy : 100 ≤ y) (hm : 1 ≤ mo)
    (hm' : mo ≤ 12) (hd : 1 ≤ d) (hd' : d ≤ monthLen (isLeap y) mo) :
    civilOfEpoch (epochOfKey (y * 10000 + mo * 100 + d)) = ⟨y, mo, d⟩ := by
  have hle := monthLen_le (isLeap y) mo
  rw [epochOfKey_of_valid hy hm hm' (by omega)]
  exact civilOfEpoch_of_valid ⟨y, mo, d⟩ ⟨hm, hm', hd, hd'⟩

/-! ## Lemmas: trimming and date-text acceptance -/

theorem dropWhile_eq_self {p : Char → Bool} :
    ∀ l : List Char, (∀ c ∈ l, p c = false) → List.dropWhile p l = l := by
  intro l h
  cases l with
  | nil => rfl
  | cons c rest =>
    rw [List.dropWhile_cons, h c (List.mem_cons_self c rest)]
    simp

theorem trimChars_eq_self {l : List Char} (h : ∀ c ∈ l, c.isWhitespace = false) :
    trimChars l = l := by
  unfold trimChars
  rw [dropWhile_eq_self l h, dropWhile_eq_self l.reverse
    (fun c hc => h c (List.mem_reverse.mp hc)), List.reverse_reverse]

theorem natToDigits_not_ws (n : Nat) :
    ∀ c ∈ natToDigits n, c.isWhitespace = false := by
  induction n using Nat.strong_induction_on with
  | _ n ih =>
    by_cases h : n < 10
    · rw [natToDigits_small h]
      intro c hc
      simp at hc
      subst hc
      exact digitChar_not_ws h
    · rw [natToDigits_step (by omega)]
      intro c hc
      rcases List.mem_append.mp hc with h1 | h2
      · exact ih (n / 10) (Nat.div_lt_self (by omega) (by omega)) c h1
      · simp at h2
        subst h2
        exact digitChar_not_ws (Nat.mod_lt n (by omega))

theorem valDigits_pad2 {n : Nat} (h : n ≤ 99) : valDigits (pad2Chars n) = n := by
  unfold pad2Chars valDigits
  simp only [List.foldl]
  rw [digitChar_toNat (Nat.mod_lt _ (by omega)), digitChar_toNat (Nat.mod_lt _ (by omega))]
  omega

theorem valDigits_pad4 {n : Nat} (h : n ≤ 9999) : valDigits (pad4Chars n) = n := by
  unfold pad4Chars valDigits
  simp only [List.foldl]
  rw [digitChar_toNat (Nat.mod_lt _ (by omega)), digitChar_toNat (Nat.mod_lt _ (by omega)),
    digitChar_toNat (Nat.mod_lt _ (by omega)), digitChar_toNat (Nat.mod_lt _ (by omega))]
  omega

theorem ymdString_data (y mo d : Nat) :
    (ymdString y mo d).data =
      [Nat.digitChar (y / 1000 % 10), Nat.digitChar (y / 100 % 10),
       Nat.digitChar (y / 10 % 10), Nat.digitChar (y % 10), '-',
       Nat.digitChar (mo / 10 % 10), Nat.digitChar (mo % 10), '-',
       Nat.digitChar (d / 10 % 10), Nat.digitChar (d % 10)] := by
  unfold ymdString pad4Chars pad2Chars
  rfl

theorem dateStrToKey_ymd {y mo d : Nat} (hy1 : 1 ≤ y) (hy2 : y ≤ 9999)
    (hm1 : 1 ≤ mo) (hm2 : mo ≤ 12) (hd1 : 1 ≤ d) (hd2 : d ≤ 31) :
    dateStrToKey (ymdString y mo d) = some (y * 10000 + mo * 100 + d) := by
  unfold dateStrToKey
  rw [ymdString_data]
  rw [trimChars_eq_self (by
    intro c hc
    simp only [List.mem_cons, List.not_mem_nil, or_false] at hc
    rcases hc with rfl | rfl | rfl | rfl | rfl | rfl | rfl | rfl | rfl | rfl <;>
      first
        | exact digitChar_not_ws (Nat.mod_lt _ (by omega))
        | decide)]
  have hdig : ∀ v : Nat, (Nat.digitChar (v % 10)).isDigit = true :=
    fun v => digitChar_isDigit (Nat.mod_lt _ (by omega))
  simp only [parseYMD]
  rw [if_pos (by
    refine ⟨?_, ?_, ?_, ?_, ?_, ?_, ?_, ?_, ?_, ?_⟩ <;> first | rfl | trivial | exact hdig _)]
  have hv1 : valDigits [Nat.digitChar (y / 1000 % 10), Nat.digitChar (y / 100 % 10),
      Nat.digitChar (y / 10 % 10), Nat.digitChar (y % 10)] = y := by
    have := valDigits_pad4 hy2
    unfold pad4Chars at this
    exact this
  have hv2 : valDigits [Nat.digitChar (mo / 10 % 10), Nat.digitChar (mo % 10)] = mo := by
    have := valDigits_pad2 (show mo ≤ 99 by omega)
    unfold pad2Chars at this
    exact this
  have hv3 : valDigits [Nat.digitChar (d / 10 % 10), Nat.digitChar (d % 10)] = d := by
    have := valDigits_pad2 (show d ≤ 99 by omega)
    unfold pad2Chars at this
    exact this
  rw [hv1, hv2, hv3]
  dsimp only
  rw [if_pos (show y ≠ 0 ∧ 1 ≤ mo ∧ mo ≤ 12 ∧ 1 ≤ d ∧ d ≤ 31 from ⟨by omega, hm1, hm2, hd1, hd2⟩)]

theorem valDigits_one {a : Nat} (h : a < 10) : valDigits [Nat.digitChar a] = a := by
  unfold valDigits
  simp only [List.foldl]
  rw [digitChar_toNat h]
  omega

theorem valDigits_two {a : Nat} (h10 : 10 ≤ a) (h : a ≤ 99) :
    valDigits [Nat.digitChar (a / 10), Nat.digitChar (a % 10)] = a := by
  unfold valDigits
  simp only [List.foldl]
  rw [digitChar_toNat (by omega), digitChar_toNat (by omega)]
  omega

theorem valDigits_four {a : Nat} (h1 : 1000 ≤ a) (h : a ≤ 9999) :
    valDigits [Nat.digitChar (a / 1000), Nat.digitChar (a / 100 % 10),
      Nat.digitChar (a / 10 % 10), Nat.digitChar (a % 10)] = a := by
  unfold valDigits
  simp only [List.foldl]
  rw [digitChar_toNat (by omega), digitChar_toNat (by omega),
    digitChar_toNat (by omega), digitChar_toNat (by omega)]
  omega

theorem dateStrToKey_mdy {mo d y : Nat} (hm1 : 1 ≤ mo) (hm2 : mo ≤ 12)
    (hd1 : 1 ≤ d) (hd2 : d ≤ 31) (hy1 : 1000 ≤ y) (hy2 : y ≤ 9999) :
    dateStrToKey (mdyString mo d y) = some (y * 10000 + mo * 100 + d) := by
  unfold dateStrToKey mdyString
  rw [show (String.mk (natToDigits mo ++ '/' ::
      (natToDigits d ++ '/' :: natToDigits y))).data =
      natToDigits mo ++ '/' :: (natToDigits d ++ '/' :: natToDigits y) from rfl]
  rw [trimChars_eq_self (by
    intro c hc
    rcases List.mem_append.mp hc with h1 | h2
    · exact natToDigits_not_ws _ c h1
    · simp only [List.mem_cons] at h2
      rcases h2 with rfl | h3
      · decide
      · rcases List.mem_append.mp h3 with h4 | h5
        · exact natToDigits_not_ws _ c h4
        · simp only [List.mem_cons] at h5
          rcases h5 with rfl | h6
          · decide
          · exact natToDigits_not_ws _ c h6)]
  rw [natToDigits_four hy1 hy2]
  have hrange : y ≠ 0 ∧ 1 ≤ mo ∧ mo ≤ 12 ∧ 1 ≤ d ∧ d ≤ 31 :=
    ⟨by omega, hm1, hm2, hd1, hd2⟩
  rcases Nat.lt_or_ge mo 10 with hmo | hmo
  · rw [natToDigits_small hmo]
    rcases Nat.lt_or_ge d 10 with hdd | hdd
    · rw [natToDigits_small hdd]
      simp only [List.cons_append, List.nil_append]
      simp only [parseYMD, parseMDY4]
      rw [if_pos (by
        refine ⟨?_, ?_, ?_, ?_, ?_, ?_, ?_, ?_⟩ <;>
          first | rfl | trivial | exact digitChar_isDigit (by omega))]
      rw [valDigits_one hmo, valDigits_one hdd, valDigits_four hy1 hy2]
      dsimp only
      rw [if_pos hrange]
    · rw [natToDigits_two hdd (by omega)]
      simp only [List.cons_append, List.nil_append]
      simp only [parseYMD, parseMDY4]
      rw [if_neg (by
        intro hcon
        exact digitChar_ne_slash (show d / 10 < 10 by omega) hcon.1)]
      rw [if_pos (by
        refine ⟨?_, ?_, ?_, ?_, ?_, ?_, ?_, ?_, ?_⟩ <;>
          first | rfl | trivial | exact digitChar_isDigit (by omega))]
      rw [valDigits_one hmo, valDigits_two hdd (by omega), valDigits_four hy1 hy2]
      dsimp only
      rw [if_pos hrange]
  · rw [natToDigits_two hmo (by omega)]
    rcases Nat.lt_or_ge d 10 with hdd | hdd
    · rw [natToDigits_small hdd]
      simp only [List.cons_append, List.nil_append]
      simp only [parseYMD, parseMDY4]
      rw [if_pos (by
        refine ⟨?_, ?_, ?_, ?_, ?_, ?_, ?_, ?_, ?_⟩ <;>
          first | rfl | trivial | exact digitChar_isDigit (by omega))]
      rw [valDigits_two hmo (by omega), valDigits_one hdd, valDigits_four hy1 hy2]
      dsimp only
      rw [if_pos hrange]
    · rw [natToDigits_two hdd (by omega)]
      simp only [List.cons_append, List.nil_append]
      simp only [parseYMD, parseMDY4]
      rw [if_neg (by
        intro hcon
        exact digitChar_ne_dash (show d % 10 < 10 by omega) hcon.1)]
      rw [if_pos (by
        refine ⟨?_, ?_, ?_, ?_, ?_, ?_, ?_, ?_, ?_, ?_⟩ <;>
          first | rfl | trivial | exact digitChar_isDigit (by omega))]
      rw [valDigits_two hmo (by omega), valDigits_two hdd (by omega),
        valDigits_four hy1 hy2]
      dsimp only
      rw [if_pos hrange]

theorem dateStrToKey_ymd_reject {y mo d : Nat} (_hy1 : 1 ≤ y) (_hy2 : y ≤ 9999)
    (hm : mo ≤ 99) (hd : d ≤ 99) (hbad : mo < 1 ∨ 12 < mo ∨ d < 1 ∨ 31 < d) :
    dateStrToKey (ymdString y mo d) = none := by
  unfold dateStrToKey
  rw [ymdString_data]
  rw [trimChars_eq_self (by
    intro c hc
    simp only [List.mem_cons, List.not_mem_nil, or_false] at hc
    rcases hc with rfl | rfl | rfl | rfl | rfl | rfl | rfl | rfl | rfl | rfl <;>
      first
        | exact digitChar_not_ws (Nat.mod_lt _ (by omega))
        | decide)]
  have hdig : ∀ v : Nat, (Nat.digitChar (v % 10)).isDigit = true :=
    fun v => digitChar_isDigit (Nat.mod_lt _ (by omega))
  simp only [parseYMD]
  rw [if_pos (by
    refine ⟨?_, ?_, ?_, ?_, ?_, ?_, ?_, ?_, ?_, ?_⟩ <;> first | rfl | trivial | exact hdig _)]
  have hv2 : valDigits [Nat.digitChar (mo / 10 % 10), Nat.digitChar (mo % 10)] = mo := by
    have := valDigits_pad2 (show mo ≤ 99 by omega)
    unfold pad2Chars at this
    exact this
  have hv3 : valDigits [Nat.digitChar (d / 10 % 10), Nat.digitChar (d % 10)] = d := by
    have := valDigits_pad2 (show d ≤ 99 by omega)
    unfold pad2Chars at this
    exact this
  rw [hv2, hv3]
  dsimp only
  rw [if_neg (by rintro ⟨h1, h2, h3, h4, h5⟩; omega)]

theorem dateStrToKey_range (s : String) (k : Nat) (h : dateStrToKey s = some k) :
    ∃ y mo d, 1 ≤ y ∧ 1 ≤ mo ∧ mo ≤ 12 ∧ 1 ≤ d ∧ d ≤ 31 ∧
      k = y * 10000 + mo * 100 + d := by
  unfold dateStrToKey at h
  dsimp only at h
  rcases hp : parseYMD (trimChars s.data) with _ | ⟨y, mo, d⟩
  · rw [hp] at h
    dsimp only at h
    rcases hq : parseMDY4 (trimChars s.data) with _ | ⟨mo, d, y⟩
    · rw [hq] at h
      exact absurd h (by simp)
    · rw [hq] at h
      dsimp only at h
      split at h
      · rename_i hcond
        refine ⟨y, mo, d, by omega, hcond.2.1, hcond.2.2.1, hcond.2.2.2.1,
          hcond.2.2.2.2, ?_⟩
        exact (Option.some.inj h).symm
      · exact absurd h (by simp)
  · rw [hp] at h
    dsimp only at h
    split at h
    · rename_i hcond
      refine ⟨y, mo, d, by omega, hcond.2.1, hcond.2.2.1, hcond.2.2.2.1,
        hcond.2.2.2.2, ?_⟩
      exact (Option.some.inj h).symm
    · exact absurd h (by simp)

/-! ## Helper lemmas for the compiler claims -/

theorem validKey_ne_zero {k : Nat} (h : validKey k = true) : k ≠ 0 := by
  unfold validKey at h
  simp only [Bool.and_eq_true, decide_eq_true_eq] at h
  omega

theorem buildAllowedSaleDates_enum {s e : Nat} (hs : s ≠ 0) (he : e ≠ 0)
    (h1 : epochOfKey s ≤ epochOfKey e) (h2 : epochOfKey e - epochOfKey s ≤ 370) :
    buildAllowedSaleDates (some s) (some e) =
      (List.range (epochOfKey e - epochOfKey s + 1)).map
        (fun i => formatMDY (epochOfKey s + i)) := by
  unfold buildAllowedSaleDates keyToEpochOpt
  dsimp only
  rw [if_neg hs, if_neg he]
  dsimp only
  rw [if_neg (by omega), if_neg (by omega)]
  have ht : ((epochOfKey e : Int) - (epochOfKey s : Int)).toNat =
      epochOfKey e - epochOfKey s := by omega
  rw [ht]

/-! ## Claims -/

/-- C1: for every FilterState, when the capability hasNumericDateKey is true
the compiled predicate tree contains no StringSetMembership clause, and every
numeric range comparison in it is against the SaleDateKey coalesce
expression. -/
theorem claim_C1 (st : FilterState) :
    hasInClause (buildFilterExpr st true) = false ∧
    dateKeyComparisonsOnly (buildFilterExpr st true) = true := by
  unfold buildFilterExpr selectorClauses dateClauses hasInClause dateKeyComparisonsOnly
  rcases st with ⟨b, g, sk, ek⟩
  dsimp only
  constructor
  · split <;> split <;> cases sk <;> cases ek <;> simp [saleDateKeyExpr]
  · split <;> split <;> cases sk <;> cases ek <;> simp [saleDateKeyExpr]

/-- C2: for every pair of valid date keys denoting days s, e with s ≤ e and an
inclusive span of at most 370 days, the enumeration has exactly span + 1
entries, the M/D/YYYY strings are in strictly ascending calendar order, and
there are no duplicates. -/
theorem claim_C2 (s e : Nat) (hs : validKey s = true) (he : validKey e = true)
    (h1 : epochOfKey s ≤ epochOfKey e) (h2 : epochOfKey e - epochOfKey s ≤ 370) :
    (buildAllowedSaleDates (some s) (some e)).length =
      epochOfKey e - epochOfKey s + 1 ∧
    (buildAllowedSaleDates (some s) (some e)).Pairwise
      (fun a b => parseMDYKey a < parseMDYKey b) ∧
    (buildAllowedSaleDates (some s) (some e)).Nodup := by
  rw [buildAllowedSaleDates_enum (validKey_ne_zero hs) (validKey_ne_zero he) h1 h2]
  have hpw : ((List.range (epochOfKey e - epochOfKey s + 1)).map
      (fun i => formatMDY (epochOfKey s + i))).Pairwise
      (fun a b => parseMDYKey a < parseMDYKey b) := by
    rw [List.pairwise_map]
    refine (List.pairwise_lt_range _).imp ?_
    intro i j hij
    rw [parseMDYKey_formatMDY, parseMDYKey_formatMDY]
    exact civKey_civilOfEpoch_strictMono (by omega)
  refine ⟨by simp, hpw, ?_⟩
  exact hpw.imp fun {a b} h heq => by rw [heq] at h; exact lt_irrefl _ h

set_option maxRecDepth 8000 in
/-- Witness for C2 at the concrete valid keys 1000101 and 1000103. -/
theorem claim_C2_witness :
    validKey 1000101 = true ∧ validKey 1000103 = true ∧
    epochOfKey 1000101 ≤ epochOfKey 1000103 ∧
    epochOfKey 1000103 - epochOfKey 1000101 ≤ 370 ∧
    ((buildAllowedSaleDates (some 1000101) (some 1000103)).length =
      epochOfKey 1000103 - epochOfKey 1000101 + 1 ∧
    (buildAllowedSaleDates (some 1000101) (some 1000103)).Pairwise
      (fun a b => parseMDYKey a < parseMDYKey b) ∧
    (buildAllowedSaleDates (some 1000101) (some 1000103)).Nodup) :=
  ⟨by decide, by decide, by decide, by decide,
    claim_C2 1000101 1000103 (by decide) (by decide) (by decide) (by decide)⟩

/-- C3: for every pair of valid date keys whose inclusive span exceeds 370
days, the enumeration is empty. -/
theorem claim_C3 (s e : Nat) (hs : validKey s = true) (he : validKey e = true)
    (h2 : 370 < epochOfKey e - epochOfKey s) :
    buildAllowedSaleDates (some s) (some e) = [] := by
  unfold buildAllowedSaleDates keyToEpochOpt
  dsimp only
  rw [if_neg (validKey_ne_zero hs), if_neg (validKey_ne_zero he)]
  dsimp only
  have hlt : epochOfKey s < epochOfKey e := by omega
  rw [if_neg (by omega), if_pos (by omega)]

set_option maxRecDepth 8000 in
/-- Witness for C3 at keys 1000101 and 1010107, whose span is 371 days. -/
theorem claim_C3_witness :
    validKey 1000101 = true ∧ validKey 1010107 = true ∧
    370 < epochOfKey 1010107 - epochOfKey 1000101 ∧
    buildAllowedSaleDates (some 1000101) (some 1010107) = [] :=
  ⟨by decide, by decide, by decide,
    claim_C3 1000101 1010107 (by decide) (by decide) (by decide)⟩

/-- C4: dateStrToKey accepts calendar-date text in YYYY-MM-DD form and in
M/D/YYYY form with a four-digit year, rejects a well-formed-looking date with
a month outside 1-12 or a day outside 1-31, and only ever accepts inputs
denoting a year-month-day triple in those ranges (it is total by
construction, so it never throws). -/
theorem claim_C4 :
    (∀ y mo d : Nat, 1 ≤ y → y ≤ 9999 → 1 ≤ mo → mo ≤ 12 → 1 ≤ d → d ≤ 31 →
      dateStrToKey (ymdString y mo d) = some (y * 10000 + mo * 100 + d)) ∧
    (∀ y mo d : Nat, 1000 ≤ y → y ≤ 9999 → 1 ≤ mo → mo ≤ 12 → 1 ≤ d → d ≤ 31 →
      dateStrToKey (mdyString mo d y) = some (y * 10000 + mo * 100 + d)) ∧
    (∀ y mo d : Nat, 1 ≤ y → y ≤ 9999 → mo ≤ 99 → d ≤ 99 →
      (mo < 1 ∨ 12 < mo ∨ d < 1 ∨ 31 < d) →
      dateStrToKey (ymdString y mo d) = none) ∧
    (∀ s k, dateStrToKey s = some k →
      ∃ y mo d, 1 ≤ y ∧ 1 ≤ mo ∧ mo ≤ 12 ∧ 1 ≤ d ∧ d ≤ 31 ∧
        k = y * 10000 + mo * 100 + d) := by
  refine ⟨?_, ?_, ?_, ?_⟩
  · intro y mo d h1 h2 h3 h4 h5 h6
    exact dateStrToKey_ymd h1 h2 h3 h4 h5 h6
  · intro y mo d h1 h2 h3 h4 h5 h6
    exact dateStrToKey_mdy h3 h4 h5 h6 h1 h2
  · intro y mo d h1 h2 h3 h4 h5
    exact dateStrToKey_ymd_reject h1 h2 h3 h4 h5
  · exact dateStrToKey_range

/-- Witness for C4: acceptance of both written forms of January 3, 2026,
rejection of a 13th month, and the range characterisation of an accepted
input. -/
theorem claim_C4_witness :
    dateStrToKey (ymdString 2026 1 3) = some 20260103 ∧
    dateStrToKey (mdyString 1 3 2026) = some 20260103 ∧
    dateStrToKey (ymdString 2026 13 1) = none ∧
    (∃ y mo d, 1 ≤ y ∧ 1 ≤ mo ∧ mo ≤ 12 ∧ 1 ≤ d ∧ d ≤ 31 ∧
      20260103 = y * 10000 + mo * 100 + d) :=
  ⟨claim_C4.1 2026 1 3 (by decide) (by decide) (by decide) (by decide) (by decide)
      (by decide),
    claim_C4.2.1 2026 1 3 (by decide) (by decide) (by decide) (by decide) (by decide)
      (by decide),
    claim_C4.2.2.1 2026 13 1 (by decide) (by decide) (by decide) (by decide)
      (Or.inr (Or.inl (by decide))),
    claim_C4.2.2.2 (ymdString 2026 1 3) 20260103
      (claim_C4.1 2026 1 3 (by decide) (by decide) (by decide) (by decide) (by decide)
        (by decide))⟩

set_option maxRecDepth 8000 in
/-- C5 counterexample: the key 1000431 (April 31 of year 100) satisfies the
DateKey invariant of the spec (month 1-12, day 1-31), yet decode normalises
it to May 1, and re-encoding the formatted text of the decoded date does not
return the key, so encode and decode are not mutual inverses on all
syntactically valid dates. -/
theorem claim_C5_counterexample :
    validKey 1000431 = true ∧
    civilOfEpoch (epochOfKey 1000431) = ⟨100, 5, 1⟩ ∧
    dateStrToKey (formatMDY (epochOfKey 1000431)) ≠ some 1000431 :=
  ⟨by decide, by decide, by decide⟩

/-- C5 amended: encode and decode are mutual inverses on calendar-valid dates
with a four-digit year: for year 1000-9999, month 1-12 and day within the
month length, decoding the encoded date text yields the same calendar date,
and encoding the M/D/YYYY text of the decoded key returns the key. -/
theorem claim_C5 (y mo d : Nat) (hy1 : 1000 ≤ y) (hy2 : y ≤ 9999)
    (hm1 : 1 ≤ mo) (hm2 : mo ≤ 12) (hd1 : 1 ≤ d)
    (hd2 : d ≤ monthLen (isLeap y) mo) :
    dateStrToKey (ymdString y mo d) = some (y * 10000 + mo * 100 + d) ∧
    civilOfEpoch (epochOfKey (y * 10000 + mo * 100 + d)) = ⟨y, mo, d⟩ ∧
    dateStrToKey (formatMDY (epochOfKey (y * 10000 + mo * 100 + d))) =
      some (y * 10000 + mo * 100 + d) := by
  have hd31 : d ≤ 31 := le_trans hd2 (monthLen_le _ _)
  have hc := civilOfEpoch_epochOfKey (show 100 ≤ y by omega) hm1 hm2 hd1 hd2
  refine ⟨dateStrToKey_ymd (by omega) hy2 hm1 hm2 hd1 hd31, hc, ?_⟩
  simp only [formatMDY]
  rw [hc]
  exact dateStrToKey_mdy hm1 hm2 hd1 hd31 hy1 hy2

/-- Witness for C5 at January 2 of year 1000. -/
theorem claim_C5_witness :
    (1 : Nat) ≤ 1 ∧ (2 : Nat) ≤ monthLen (isLeap 1000) 1 ∧
    (dateStrToKey (ymdString 1000 1 2) = some (1000 * 10000 + 1 * 100 + 2) ∧
    civilOfEpoch (epochOfKey (1000 * 10000 + 1 * 100 + 2)) = ⟨1000, 1, 2⟩ ∧
    dateStrToKey (formatMDY (epochOfKey (1000 * 10000 + 1 * 100 + 2))) =
      some (1000 * 10000 + 1 * 100 + 2)) :=
  ⟨by decide, by decide,
    claim_C5 1000 1 2 (by decide) (by decide) (by decide) (by decide) (by decide)
      (by decide)⟩

/-- C6: when both date bounds are present and reversed, applyFilters
normalises by swapping the bounds (keeping both, rejecting nothing), every
normalised both-present pair satisfies start ≤ end, and compiling the
normalised state equals compiling the swapped range. -/
theorem claim_C6 (a b : Nat) (st : FilterState) (hasKey : Bool) (h : b < a) :
    normalizeDateKeys (some a) (some b) = (some b, some a) ∧
    (∀ (s e : Option Nat) (u v : Nat),
      normalizeDateKeys s e = (some u, some v) → u ≤ v) ∧
    buildFilterExpr
      { st with startKey := (normalizeDateKeys (some a) (some b)).1,
                endKey := (normalizeDateKeys (some a) (some b)).2 } hasKey =
      buildFilterExpr { st with startKey := some b, endKey := some a } hasKey := by
  have hswap : normalizeDateKeys (some a) (some b) = (some b, some a) := by
    unfold normalizeDateKeys
    dsimp only
    rw [if_pos h]
  refine ⟨hswap, ?_, by rw [hswap]⟩
  intro s e u v huv
  match s, e with
  | some x, some y =>
    unfold normalizeDateKeys at huv
    dsimp only at huv
    by_cases hxy : y < x
    · rw [if_pos hxy] at huv
      have h1 : y = u := congrArg (Option.getD · 0) (congrArg Prod.fst huv)
      have h2 : x = v := congrArg (Option.getD · 0) (congrArg Prod.snd huv)
      omega
    · rw [if_neg hxy] at huv
      have h1 : x = u := congrArg (Option.getD · 0) (congrArg Prod.fst huv)
      have h2 : y = v := congrArg (Option.getD · 0) (congrArg Prod.snd huv)
      omega
  | some x, none => simp [normalizeDateKeys] at huv
  | none, some y => simp [normalizeDateKeys] at huv
  | none, none => simp [normalizeDateKeys] at huv

/-- Witness for C6 at the reversed pair (20260310, 20260101). -/
theorem claim_C6_witness :
    (20260101 : Nat) < 20260310 ∧
    (normalizeDateKeys (some 20260310) (some 20260101) =
      (some 20260101, some 20260310) ∧
    (∀ (s e : Option Nat) (u v : Nat),
      normalizeDateKeys s e = (some u, some v) → u ≤ v) ∧
    buildFilterExpr
      { branch := "__ALL__", group := "__ALL__",
        startKey := (normalizeDateKeys (some 20260310) (some 20260101)).1,
        endKey := (normalizeDateKeys (some 20260310) (some 20260101)).2 } true =
      buildFilterExpr
        { branch := "__ALL__", group := "__ALL__",
          startKey := some 20260101, endKey := some 20260310 } true) :=
  ⟨by decide,
    claim_C6 20260310 20260101
      ⟨"__ALL__", "__ALL__", some 20260310, some 20260101⟩ true (by decide)⟩

/-- C7: the FilterState with both selectors on the __ALL__ sentinel and no
date bounds compiles, under either capability, to the empty all-conjunction,
which evaluates to true on every feature record. -/
theorem claim_C7 (cap : Bool) (r : Record) :
    buildFilterExpr ⟨"__ALL__", "__ALL__", none, none⟩ cap = [] ∧
    evalFilter (buildFilterExpr ⟨"__ALL__", "__ALL__", none, none⟩ cap) r = true := by
  have h : buildFilterExpr ⟨"__ALL__", "__ALL__", none, none⟩ cap = [] := by
    unfold buildFilterExpr selectorClauses dateClauses
    cases cap <;> simp
  exact ⟨h, by rw [h]; rfl⟩

/-- C8: the heatmap weight expression is structurally ln(1 + safeNumber) of
the metric field; it evaluates to exactly 0 when the field is null (missing)
or a non-numeric string; and its value is monotonically non-decreasing in the
coerced numeric value of the field wherever 1 + value stays positive. -/
theorem claim_C8 (metric : String) (r r1 r2 : Record) :
    heatWeightExpr metric = metricExpressionSpec metric ∧
    ((r (metricFieldName metric) = JVal.jnull ∨
      (∃ s, r (metricFieldName metric) = JVal.str s ∧ parseNumQ s = none)) →
      evalPaint (heatWeightExpr metric) r = some 0) ∧
    ((-1 : ℚ) < safeNumberVal (metricFieldName metric) r1 →
      safeNumberVal (metricFieldName metric) r1 ≤
        safeNumberVal (metricFieldName metric) r2 →
      ∃ w1 w2 : ℝ, evalPaint (heatWeightExpr metric) r1 = some w1 ∧
        evalPaint (heatWeightExpr metric) r2 = some w2 ∧ w1 ≤ w2) := by
  have heval : ∀ rr : Record, evalPaint (heatWeightExpr metric) rr =
      some (Real.log (1 + ((safeNumberVal (metricFieldName metric) rr : ℚ) : ℝ))) := by
    intro rr
    simp [heatWeightExpr, numField, evalPaint, evalVal, safeNumberVal, Option.bind]
  refine ⟨rfl, ?_, ?_⟩
  · intro h
    rw [heval]
    have hz : safeNumberVal (metricFieldName metric) r = 0 := by
      rcases h with h | ⟨s, hs, hp⟩
      · simp [safeNumberVal, h, toNumCore]
      · simp [safeNumberVal, hs, toNumCore, hp]
    rw [hz]
    norm_num [Real.log_one]
  · intro hgt hle
    refine ⟨_, _, heval r1, heval r2, ?_⟩
    have hgt' : (-1 : ℝ) < ((safeNumberVal (metricFieldName metric) r1 : ℚ) : ℝ) := by
      exact_mod_cast hgt
    have hle' : ((safeNumberVal (metricFieldName metric) r1 : ℚ) : ℝ) ≤
        ((safeNumberVal (metricFieldName metric) r2 : ℚ) : ℝ) := by
      exact_mod_cast hle
    exact Real.log_le_log (by linarith) (by linarith)

/-- Witness for C8: a record with a null metric field weighs exactly 0 and
weighs no more than a record with metric value 5. -/
theorem claim_C8_witness :
    evalPaint (heatWeightExpr "Sales") (fun _ => JVal.jnull) = some 0 ∧
    ((-1 : ℚ) < safeNumberVal (metricFieldName "Sales") (fun _ => JVal.jnull) ∧
    (∃ w1 w2 : ℝ,
      evalPaint (heatWeightExpr "Sales") (fun _ => JVal.jnull) = some w1 ∧
      evalPaint (heatWeightExpr "Sales") (fun _ => JVal.num 5) = some w2 ∧
      w1 ≤ w2)) :=
  ⟨(claim_C8 "Sales" (fun _ => JVal.jnull) (fun _ => JVal.jnull)
      (fun _ => JVal.num 5)).2.1 (Or.inl rfl),
    by decide,
    (claim_C8 "Sales" (fun _ => JVal.jnull) (fun _ => JVal.jnull)
      (fun _ => JVal.num 5)).2.2 (by decide) (by decide)⟩

/-- C9: applying the compiled filter to the dependent layers never lets an
exception escape (the result is always ok), the point layer still receives
the filter when it is present and healthy regardless of what happened on the
heat layer, a failing heat layer is recorded as a logged non-fatal message,
and the point-layer outcome depends only on the point layer's own state. -/
theorem claim_C9 (present fails : String → Bool) :
    applyFilterToLayers present fails =
      Except.ok [trySetFilter present fails HEAT_LAYER_ID,
        trySetFilter present fails POINT_LAYER_ID] ∧
    (present POINT_LAYER_ID = true → fails POINT_LAYER_ID = false →
      trySetFilter present fails POINT_LAYER_ID = (true, none)) ∧
    (present HEAT_LAYER_ID = true → fails HEAT_LAYER_ID = true →
      trySetFilter present fails HEAT_LAYER_ID =
        (false, some ("setFilter " ++ HEAT_LAYER_ID ++ " failed"))) ∧
    (∀ present' fails' : String → Bool,
      present' POINT_LAYER_ID = present POINT_LAYER_ID →
      fails' POINT_LAYER_ID = fails POINT_LAYER_ID →
      trySetFilter present' fails' POINT_LAYER_ID =
        trySetFilter present fails POINT_LAYER_ID) := by
  refine ⟨rfl, ?_, ?_, ?_⟩
  · intro hp hf
    unfold trySetFilter setFilterRaw
    rw [hp, hf]
    rfl
  · intro hp hf
    unfold trySetFilter setFilterRaw
    rw [hp, hf]
    rfl
  · intro present' fails' hp hf
    unfold trySetFilter setFilterRaw
    rw [hp, hf]

/-- Witness for C9: all layers present, the heat layer failing; the failure
is logged, the point layer is still filtered, nothing escapes. -/
theorem claim_C9_witness :
    (fun _ : String => true) POINT_LAYER_ID = true ∧
    (fun id : String => id == HEAT_LAYER_ID) POINT_LAYER_ID = false ∧
    (applyFilterToLayers (fun _ => true) (fun id => id == HEAT_LAYER_ID) =
      Except.ok [trySetFilter (fun _ => true) (fun id => id == HEAT_LAYER_ID)
          HEAT_LAYER_ID,
        trySetFilter (fun _ => true) (fun id => id == HEAT_LAYER_ID)
          POINT_LAYER_ID] ∧
    trySetFilter (fun _ => true) (fun id => id == HEAT_LAYER_ID) POINT_LAYER_ID =
      (true, none) ∧
    trySetFilter (fun _ => true) (fun id => id == HEAT_LAYER_ID) HEAT_LAYER_ID =
      (false, some ("setFilter " ++ HEAT_LAYER_ID ++ " failed"))) :=
  ⟨rfl, by decide,
    ⟨(claim_C9 (fun _ => true) (fun id => id == HEAT_LAYER_ID)).1,
      (claim_C9 (fun _ => true) (fun id => id == HEAT_LAYER_ID)).2.1 rfl (by decide),
      (claim_C9 (fun _ => true) (fun id => id == HEAT_LAYER_ID)).2.2.1 rfl
        (by decide)⟩⟩

/-- C10: on the degraded path with exactly one date bound present, the
compiler substitutes the missing bound with the present one, and the date
clause of the compiled predicate is a single StringSetMembership clause over
the BOM SaleDate field whose set holds exactly that one day's M/D/YYYY
string. -/
theorem claim_C10 (st : FilterState) (k : Nat) (hk : k ≠ 0)
    (h : (st.startKey = some k ∧ st.endKey = none) ∨
      (st.startKey = none ∧ st.endKey = some k)) :
    st.startKey.or st.endKey = some k ∧
    st.endKey.or st.startKey = some k ∧
    dateClauses st false =
      [FilterClause.inGetLiteral BOM_SALEDATE_FIELD [formatMDY (epochOfKey k)]] ∧
    buildFilterExpr st false = selectorClauses st ++
      [FilterClause.inGetLiteral BOM_SALEDATE_FIELD [formatMDY (epochOfKey k)]] := by
  have hsingle : buildAllowedSaleDates (some k) (some k) =
      [formatMDY (epochOfKey k)] := by
    unfold buildAllowedSaleDates keyToEpochOpt
    dsimp only
    rw [if_neg hk]
    dsimp only
    rw [if_neg (by omega), if_neg (by omega)]
    have h0 : ((epochOfKey k : Int) - (epochOfKey k : Int)).toNat = 0 := by omega
    rw [h0]
    rw [show List.range (0 + 1) = [0] from rfl]
    simp
  have hor1 : st.startKey.or st.endKey = some k := by
    rcases h with ⟨h1, h2⟩ | ⟨h1, h2⟩ <;> rw [h1, h2] <;> rfl
  have hor2 : st.endKey.or st.startKey = some k := by
    rcases h with ⟨h1, h2⟩ | ⟨h1, h2⟩ <;> rw [h1, h2] <;> rfl
  have hsome : st.startKey.isSome || st.endKey.isSome := by
    rcases h with ⟨h1, _⟩ | ⟨_, h2⟩
    · rw [h1]; rfl
    · rw [h2]; simp
  have hdate : dateClauses st false =
      [FilterClause.inGetLiteral BOM_SALEDATE_FIELD [formatMDY (epochOfKey k)]] := by
    unfold dateClauses
    rw [if_neg (by simp), if_pos hsome, hor1, hor2, hsingle]
    rfl
  exact ⟨hor1, hor2, hdate, by rw [buildFilterExpr, hdate]⟩

set_option maxRecDepth 8000 in
/-- Witness for C10: a start-only range at key 1000115 compiles to the
one-day string-membership clause. -/
theorem claim_C10_witness :
    (1000115 : Nat) ≠ 0 ∧
    ((⟨"__ALL__", "__ALL__", some 1000115, none⟩ : FilterState).startKey.or
        (⟨"__ALL__", "__ALL__", some 1000115, none⟩ : FilterState).endKey =
        some 1000115 ∧
    (⟨"__ALL__", "__ALL__", some 1000115, none⟩ : FilterState).endKey.or
        (⟨"__ALL__", "__ALL__", some 1000115, none⟩ : FilterState).startKey =
        some 1000115 ∧
    dateClauses ⟨"__ALL__", "__ALL__", some 1000115, none⟩ false =
      [FilterClause.inGetLiteral BOM_SALEDATE_FIELD
        [formatMDY (epochOfKey 1000115)]] ∧
    buildFilterExpr ⟨"__ALL__", "__ALL__", some 1000115, none⟩ false =
      selectorClauses ⟨"__ALL__", "__ALL__", some 1000115, none⟩ ++
      [FilterClause.inGetLiteral BOM_SALEDATE_FIELD
        [formatMDY (epochOfKey 1000115)]]) :=
  ⟨by decide,
    claim_C10 ⟨"__ALL__", "__ALL__", some 1000115, none⟩ 1000115 (by decide)
      (Or.inl ⟨rfl, rfl⟩)⟩
